import Mathlib

/-!
Verification of the all-repos-self maintainer scripts against their
specification.

The development shallowly embeds the relevant parts of the three Python
sources:

* `src/tasks/helper.py` — the `GH._parallel` bounded fan-out/fan-in helper
  (submission dictionary, collection loop, worker pool), the generator
  semantics of `GH.open_prs`, and the row sorting of `OpenPRs.run`;
* `src/tasks/install_uv_python.py` — the command sequence issued by `run()`
  and the symlink state it leaves behind.

Python lists become `List`, raising code becomes `Except`, Python strings
are compared by code points, and the nondeterministic completion order of
`concurrent.futures.as_completed` is universally quantified as a
permutation of the submitted tasks.
-/

namespace AllReposSelf

/- ### GH._parallel (src/tasks/helper.py, lines 45-53) -/

/-- Embedding of the collection loop of `GH._parallel` (lines 50-52):
`result = []` followed by `for future in as_completed(future_to_url):`
`data = future.result(); result.extend(data)`.  `outs` is the list of
per-task outcomes in completion order.  `Except.error` models a task whose
`future.result()` call (or whose consumption by `extend`, for a generator)
raises: the loop aborts, the exception propagates out of `_parallel`, and
the local accumulator `result` is discarded. -/
def parallelLoop {ε β : Type} : List (Except ε (List β)) → List β → Except ε (List β)
  | [], result => Except.ok result
  | Except.error e :: _, _ => Except.error e
  | Except.ok items :: rest, result => parallelLoop rest (result ++ items)

/-- Embedding of `GH._parallel` (lines 45-53): one task is submitted per
identifier, each task evaluates `func` on its identifier, and the per-task
outcomes are collected in the completion order of `as_completed`.  The
completion order is nondeterministic; it is modelled by the explicit
argument `order`, which the theorems below quantify over all permutations
of the submitted identifier list. -/
def parallelRun {α ε β : Type} (func : α → Except ε (List β)) (order : List α) :
    Except ε (List β) :=
  parallelLoop (order.map func) []

/-- Python dictionary insertion on an association list: assigning to an
existing key overwrites its value in place, a new key is appended at the
end (Python dicts preserve insertion order). -/
def dictInsert {α : Type} (m : List (Nat × α)) (k : Nat) (v : α) : List (Nat × α) :=
  if m.any (fun p => p.1 == k) then m.map (fun p => if p.1 == k then (k, v) else p)
  else m ++ [(k, v)]

/-- Embedding of `future_to_url = {executor.submit(func, d): d for d in data}`
(line 49).  The comprehension iterates `data` exactly once; each
`executor.submit` call returns a fresh `Future` object, modelled by the
submission index, which is the dictionary key; the identifier is the value. -/
def futureDict {α : Type} (data : List α) : List (Nat × α) :=
  data.enum.foldl (fun m p => dictInsert m p.1 p.2) []

/- ### Generator semantics of GH.open_prs (src/tasks/helper.py, lines 36-43) -/

/-- Suspended Python generator object, as returned by calling a generator
function such as `_get_pulls` (lines 38-41): `body` is the sequence of
items the body would yield once iterated.  Calling a generator function in
Python only creates this object; no statement of the body runs at call
time. -/
structure GenObj (β : Type) where
  body : List β

/-- Computation a worker thread performs for `executor.submit(func, d)`
(line 49) when `func` is a generator function: it evaluates `func(d)`,
which returns the suspended generator at once.  The second component is
the list of items produced inside the worker task: none. -/
def workerCall {β : Type} (g : GenObj β) : GenObj β × List β :=
  (g, [])

/-- The caller running `result.extend(data)` (line 52) on a generator
obtained from `future.result()`: iterating executes the whole body now, in
the calling thread, after the future already completed.  First component:
the new accumulator; second component: the items produced in the caller. -/
def callerExtend {β : Type} (result : List β) (g : GenObj β) : List β × List β :=
  (result ++ g.body, g.body)

/- ### Worker-pool execution model (src/tasks/helper.py, line 48) -/

/-- Pool bound from `ThreadPoolExecutor(max_workers=12)` (line 48). -/
def maxWorkers : Nat := 12

/-- State of one `_parallel` call over `n` submitted tasks, identified by
their submission index: tasks not yet picked up by a worker, tasks whose
invocation is currently in flight, tasks already finished (in completion
order), and whether control has returned to the caller. -/
structure PoolState where
  notStarted : List Nat
  running : List Nat
  finished : List Nat
  exited : Bool
deriving DecidableEq

/-- Initial state right after line 49 submitted one task per identifier:
nothing started, nothing finished, control inside `_parallel`. -/
def initState (n : Nat) : PoolState :=
  ⟨List.range n, [], [], false⟩

/-- Execution steps of the pool, following the documented semantics of
`ThreadPoolExecutor`: a worker may pick up a pending task only while fewer
than `max_workers` invocations are in flight; a running task may finish
(successfully or by raising); the `with` block exits — returning control
to the caller by `return` or by re-raising — only once no task is pending
or running, because `ThreadPoolExecutor.__exit__` calls
`shutdown(wait=True)`. -/
inductive PoolStep : PoolState → PoolState → Prop
  | start (i : Nat) (rest running finished : List Nat)
      (h : running.length < maxWorkers) :
      PoolStep ⟨i :: rest, running, finished, false⟩
        ⟨rest, running ++ [i], finished, false⟩
  | finish (i : Nat) (notStarted pre post finished : List Nat) :
      PoolStep ⟨notStarted, pre ++ i :: post, finished, false⟩
        ⟨notStarted, pre ++ post, finished ++ [i], false⟩
  | exit (finished : List Nat) :
      PoolStep ⟨[], [], finished, false⟩ ⟨[], [], finished, true⟩

/-- States reachable by a `_parallel` call over `n` submitted tasks. -/
inductive Reachable (n : Nat) : PoolState → Prop
  | init : Reachable n (initState n)
  | step {s t : PoolState} : Reachable n s → PoolStep s t → Reachable n t

/- ### Row sorting of OpenPRs.run (src/tasks/helper.py, lines 96-114) -/

/-- One table row of the `pr` command: the fields of the pair
`(repo, pr)` that `OpenPRs.run` reads (lines 101-113). -/
structure Row where
  owner : String
  repo : String
  updated : String
  title : String
deriving DecidableEq

/-- Code points of a string, the units Python compares strings by. -/
def strCodes (s : String) : List Nat :=
  s.data.map Char.toNat

/-- Python string comparison `a < b`: lexicographic on code points, a
proper prefix is smaller. -/
def codesLt : List Nat → List Nat → Bool
  | [], [] => false
  | [], _ :: _ => true
  | _ :: _, [] => false
  | a :: as, b :: bs => a < b || (a == b && codesLt as bs)

/-- Sort key of line 103: `(d[0].owner.login, d[0].name,
d[1].updated_at.isoformat())`, taken to code points. -/
def sortKey (r : Row) : List Nat × List Nat × List Nat :=
  (strCodes r.owner, strCodes r.repo, strCodes r.updated)

/-- Python tuple comparison `x < y` on the three-string sort key:
lexicographic over the components. -/
def tripleLt (x y : List Nat × List Nat × List Nat) : Bool :=
  codesLt x.1 y.1 ||
    (x.1 == y.1 && (codesLt x.2.1 y.2.1 || (x.2.1 == y.2.1 && codesLt x.2.2 y.2.2)))

/-- Row order used by `sorted(..., key=..., reverse=True)` (lines 101-105):
`a` may be placed before `b` exactly when the key of `a` is not smaller
than the key of `b`. -/
def rowGe (a b : Row) : Prop :=
  tripleLt (sortKey a) (sortKey b) = false

instance : DecidableRel rowGe :=
  fun a b => instDecidableEqBool (tripleLt (sortKey a) (sortKey b)) false

/-- Strictly-descending key order between rows, used to state uniqueness
of the sorted table. -/
def rowGt (a b : Row) : Prop :=
  tripleLt (sortKey b) (sortKey a) = true

/-- Embedding of `sorted(github.open_prs, key=..., reverse=True)`
(lines 101-105).  Python's `sorted` is a stable sort; with `reverse=True`
rows with equal keys keep their input order.  Insertion sort with the
non-strict descending relation `rowGe` is that stable sort. -/
def pySortedDesc (rows : List Row) : List Row :=
  List.insertionSort rowGe rows

/-- Two rows with identical sort keys but different titles, as produced by
two identifiers that resolve to the same repository with two pull requests
sharing an `updated_at` timestamp. -/
def exRowA : Row :=
  ⟨"gaborbernat", "tox", "2025-01-01T00:00:00", "first"⟩

/-- Second row of the tie; same sort key as `exRowA`. -/
def exRowB : Row :=
  ⟨"gaborbernat", "tox", "2025-01-01T00:00:00", "second"⟩

/-- Row whose sort key differs from that of `exRowA`. -/
def exRowC : Row :=
  ⟨"gaborbernat", "virtualenv", "2025-01-02T03:04:05", "third"⟩

/- ### install_uv_python.run (src/tasks/install_uv_python.py, lines 7-33) -/

/-- External commands `run()` issues through `check_call`: a
`uv python install` invocation, or `ln -s -f target linkName`.  Paths are
relative to the user's home directory, which anchors every path in the
source. -/
inductive Cmd where
  | uvInstall (spec : String)
  | lnSF (target : String) (linkName : String)
deriving DecidableEq

/-- Python `s.split(sep)` for a one-character separator. -/
def pySplit (sep : Char) (s : String) : List String :=
  (s.data.splitOn sep).map (fun cs => String.mk cs)

/-- Line 19: `minor = ".".join(version.split(".")[:2])`. -/
def minorOf (version : String) : String :=
  String.intercalate "." ((pySplit '.' version).take 2)

/-- Line 9: `src`, relative to home. -/
def srcDir : String := "Library/Application Support/uv/python"

/-- Line 10: `dest`, relative to home. -/
def destDir : String := ".local/bin"

/-- The `py` table of lines 12-15, an insertion-ordered dictionary. -/
def py : List (String × List String) :=
  [("cpython", ["3.8.20", "3.9.21", "3.10.16", "3.11.11", "3.12.9", "3.13.2"]),
   ("pypy", ["3.8.16", "3.9.19", "3.10.14"])]

/-- Loop body of lines 16-26 for one `(impl, version)` pair: the install
command of line 18 followed by the versioned symlink of lines 20-26. -/
def cmdsFor (impl : String) (version : String) : List Cmd :=
  [Cmd.uvInstall (impl ++ "-" ++ version),
   Cmd.lnSF (srcDir ++ "/" ++ impl ++ "-" ++ version ++ "-macos-aarch64-none/bin/python")
     (destDir ++ "/" ++ (if impl == "cpython" then "python" else "pypy") ++ minorOf version)]

/-- The full command sequence of `run()`, in order: the nested loop of
lines 16-26 over `py`, then the final unversioned `python` symlink of
lines 27-33 whose target uses `py["cpython"][-1]`. -/
def runCmds : List Cmd :=
  (py.map (fun iv => (iv.2.map (cmdsFor iv.1)).flatten)).flatten
    ++ [Cmd.lnSF
          (srcDir ++ "/cpython-" ++ ((List.lookup "cpython" py).getD []).getLastD ""
            ++ "-macos-aarch64-none/bin/python")
          (destDir ++ "/python")]

/-- Effect of one command on the symlink table: `ln -s -f` (re)points
`linkName` at `target`, replacing any previous link of that name;
`uv python install` touches no symlink in `dest`. -/
def applyCmd (fs : List (String × String)) : Cmd → List (String × String)
  | Cmd.uvInstall _ => fs
  | Cmd.lnSF target linkName => (linkName, target) :: fs.filter (fun p => p.1 != linkName)

/-- Symlink table left behind after `run()` executed all commands. -/
def finalLinks : List (String × String) :=
  runCmds.foldl applyCmd []

/-- Test for the command that creates the unversioned `python` link. -/
def isBarePythonLink (c : Cmd) : Bool :=
  match c with
  | Cmd.lnSF _ link => link == destDir ++ "/python"
  | _ => false

/- ### Helper lemmas about the collection loop -/

/-- When every task succeeds, the loop appends each output to the
accumulator in completion order. -/
theorem parallelLoop_ok {ε β : Type} (L : List (List β)) (acc : List β) :
    parallelLoop (L.map (Except.ok : List β → Except ε (List β))) acc =
      Except.ok (acc ++ L.flatten) := by
  induction L generalizing acc with
  | nil => simp [parallelLoop]
  | cons l L ih => simp [parallelLoop, ih]

/-- When one identifier fails and every other one succeeds, the loop
returns that identifier's error whatever the completion order. -/
theorem parallelLoop_first_error {α ε β : Type} (func : α → Except ε (List β))
    (j : α) (e : ε) :
    ∀ (order : List α) (acc : List β), j ∈ order →
      (∀ i ∈ order, i ≠ j → ∃ l, func i = Except.ok l) →
      func j = Except.error e →
      parallelLoop (order.map func) acc = Except.error e := by
  intro order
  induction order with
  | nil => intro acc hj _ _; exact absurd hj (List.not_mem_nil j)
  | cons a rest ih =>
    intro acc hj hok hfail
    by_cases haj : a = j
    · subst haj
      simp [parallelLoop, hfail]
    · obtain ⟨l, hl⟩ := hok a (List.mem_cons_self a rest) haj
      have hj' : j ∈ rest := by
        rcases List.mem_cons.1 hj with h1 | h1
        · exact absurd h1.symm haj
        · exact h1
      rw [List.map_cons, hl]
      show parallelLoop (Except.ok l :: rest.map func) acc = Except.error e
      rw [show parallelLoop (Except.ok l :: rest.map func) acc =
            parallelLoop (rest.map func) (acc ++ l) from rfl]
      exact ih (acc ++ l) hj' (fun i hi hne => hok i (List.mem_cons_of_mem a hi) hne) hfail

/-- Coercion of a flattened list of lists to a multiset is the sum of the
per-list multisets. -/
theorem multiset_coe_flatten {β : Type} (L : List (List β)) :
    ((L.flatten : List β) : Multiset β) =
      (L.map fun l => ((l : List β) : Multiset β)).sum := by
  induction L with
  | nil => simp
  | cons l L ih => simp [List.flatten_cons, ← Multiset.coe_add, ih]

/- ### Claim theorems for the parallel fetch -/

/-- C1: for every finite identifier collection and mapping function, and
every completion order of the worker pool, `_parallel` returns exactly the
items produced over all identifiers — its length is the sum of the
per-identifier item counts, and as a multiset it is the union of the
per-identifier outputs: no item lost, none duplicated. -/
theorem parallel_no_loss_no_duplication {α ε β : Type} (data order : List α)
    (g : α → List β) (h : order.Perm data) :
    ∃ res : List β,
      parallelRun (fun i => (Except.ok (g i) : Except ε (List β))) order = Except.ok res ∧
      res.length = (data.map fun i => (g i).length).sum ∧
      (res : Multiset β) = (data.map fun i => ((g i : List β) : Multiset β)).sum := by
  refine ⟨(order.map g).flatten, ?_, ?_, ?_⟩
  · show parallelLoop (order.map fun i => (Except.ok (g i) : Except ε (List β))) [] = _
    rw [show (order.map fun i => (Except.ok (g i) : Except ε (List β))) =
          (order.map g).map (Except.ok : List β → Except ε (List β)) from by
        rw [List.map_map]; rfl]
    simpa using parallelLoop_ok (order.map g) []
  · rw [List.length_flatten, List.map_map]
    exact (h.map fun i => (g i).length).sum_eq
  · rw [multiset_coe_flatten, List.map_map]
    exact (h.map fun i => ((g i : List β) : Multiset β)).sum_eq

/-- Witness for C1 at a concrete input. -/
theorem parallel_no_loss_no_duplication_witness :
    ∃ res : List Nat,
      parallelRun (fun i => (Except.ok [i, i + 10] : Except Unit (List Nat))) [2, 3, 1] =
        Except.ok res ∧
      res.length = (([1, 2, 3] : List Nat).map fun i => ([i, i + 10] : List Nat).length).sum ∧
      (res : Multiset Nat) =
        (([1, 2, 3] : List Nat).map fun i => (([i, i + 10] : List Nat) : Multiset Nat)).sum :=
  parallel_no_loss_no_duplication [1, 2, 3] [2, 3, 1] (fun i => [i, i + 10]) (by decide)

/-- C4: in the successful aggregate, the items of one identifier appear as
a contiguous block in the order the mapping function yielded them, and the
whole result is an identifier-level permutation of the concatenation of
the per-identifier outputs. -/
theorem parallel_per_identifier_order_preserved {α ε β : Type} (data order : List α)
    (g : α → List β) (h : order.Perm data) :
    ∃ blocks : List (List β),
      blocks.Perm (data.map g) ∧
      parallelRun (fun i => (Except.ok (g i) : Except ε (List β))) order =
        Except.ok blocks.flatten := by
  refine ⟨order.map g, h.map g, ?_⟩
  show parallelLoop (order.map fun i => (Except.ok (g i) : Except ε (List β))) [] = _
  rw [show (order.map fun i => (Except.ok (g i) : Except ε (List β))) =
        (order.map g).map (Except.ok : List β → Except ε (List β)) from by
      rw [List.map_map]; rfl]
  simpa using parallelLoop_ok (order.map g) []

/-- Witness for C4 at a concrete input. -/
theorem parallel_per_identifier_order_preserved_witness :
    ∃ blocks : List (List Nat),
      blocks.Perm (([1, 2] : List Nat).map fun i => [i, i + 10]) ∧
      parallelRun (fun i => (Except.ok [i, i + 10] : Except Unit (List Nat))) [2, 1] =
        Except.ok blocks.flatten :=
  parallel_per_identifier_order_preserved [1, 2] [2, 1] (fun i => [i, i + 10]) (by decide)

/-- C8: if the mapping function returns the empty sequence for every
identifier, `_parallel` returns the empty sequence, whatever the
completion order. -/
theorem parallel_all_empty_gives_empty {α ε β : Type} (data order : List α)
    (g : α → List β) (h : order.Perm data) (hempty : ∀ i ∈ data, g i = []) :
    parallelRun (fun i => (Except.ok (g i) : Except ε (List β))) order = Except.ok [] := by
  show parallelLoop (order.map fun i => (Except.ok (g i) : Except ε (List β))) [] = _
  rw [show (order.map fun i => (Except.ok (g i) : Except ε (List β))) =
        (order.map g).map (Except.ok : List β → Except ε (List β)) from by
      rw [List.map_map]; rfl]
  rw [parallelLoop_ok (order.map g) []]
  have hflat : (order.map g).flatten = [] := by
    rw [List.flatten_eq_nil_iff]
    intro l hl
    obtain ⟨i, hi, rfl⟩ := List.mem_map.1 hl
    exact hempty i (h.mem_iff.1 hi)
  rw [hflat]
  rfl

/-- Witness for C8 at a concrete input. -/
theorem parallel_all_empty_gives_empty_witness :
    parallelRun (fun _ => (Except.ok [] : Except Unit (List Nat))) [6, 5] = Except.ok [] :=
  parallel_all_empty_gives_empty [5, 6] [6, 5] (fun _ => []) (by decide) (by decide)

/-- C2: if the mapping function fails for exactly one identifier among
many and succeeds for every other, `_parallel` surfaces that failure to
the caller whatever the completion order; the partial results of the
identifiers that already succeeded are discarded and no partial-success
value is ever returned. -/
theorem parallel_single_failure_surfaces {α ε β : Type} (data order : List α)
    (func : α → Except ε (List β)) (j : α) (e : ε)
    (hperm : order.Perm data) (hj : j ∈ data) (hfail : func j = Except.error e)
    (hok : ∀ i ∈ data, i ≠ j → ∃ l, func i = Except.ok l) :
    parallelRun func order = Except.error e :=
  parallelLoop_first_error func j e order [] (hperm.mem_iff.2 hj)
    (fun i hi hne => hok i (hperm.mem_iff.1 hi) hne) hfail

/-- Witness for C2 at a concrete input. -/
theorem parallel_single_failure_surfaces_witness :
    parallelRun
        (fun i => if i = 2 then (Except.error "boom" : Except String (List Nat))
          else Except.ok [i])
        [2, 1, 3] = Except.error "boom" :=
  parallel_single_failure_surfaces [1, 2, 3] [2, 1, 3]
    (fun i => if i = 2 then Except.error "boom" else Except.ok [i]) 2 "boom"
    (by decide) (by decide) rfl
    (by
      intro i hi hne
      have hi3 : i = 1 ∨ i = 2 ∨ i = 3 := by simpa using hi
      rcases hi3 with rfl | rfl | rfl
      · exact ⟨[1], rfl⟩
      · exact absurd rfl hne
      · exact ⟨[3], rfl⟩)

/-- Folding Python dictionary insertion over index-value pairs whose
indices are all fresh only ever appends. -/
theorem futureDict_loop {α : Type} (l : List α) :
    ∀ (i : Nat) (m : List (Nat × α)), (∀ p ∈ m, p.1 < i) →
      (List.enumFrom i l).foldl (fun m p => dictInsert m p.1 p.2) m =
        m ++ List.enumFrom i l := by
  induction l with
  | nil => intro i m _; simp
  | cons a l ih =>
    intro i m hm
    rw [List.enumFrom_cons, List.foldl_cons]
    have hnotin : m.any (fun p => p.1 == i) = false := by
      rw [List.any_eq_false]
      intro p hp
      simpa using Nat.ne_of_lt (hm p hp)
    have hins : dictInsert m i a = m ++ [(i, a)] := by
      simp [dictInsert, hnotin]
    rw [hins, ih (i + 1) (m ++ [(i, a)]) ?_]
    · simp
    · intro p hp
      rcases List.mem_append.1 hp with hp1 | hp1
      · exact Nat.lt_succ_of_lt (hm p hp1)
      · have : p = (i, a) := by simpa using hp1
        rw [this]
        exact Nat.lt_succ_self i

/-- C6: the submission dictionary holds exactly one future per element of
the identifier collection — duplicate identifiers each keep their own
entry because every `executor.submit` call yields a fresh key — so the
mapping function is invoked exactly once per element, and the collection
is consumed exactly once, in order. -/
theorem parallel_one_task_per_identifier {α : Type} (data : List α) :
    (futureDict data).map Prod.snd = data ∧ (futureDict data).length = data.length := by
  have h : futureDict data = data.enum := by
    have h0 := futureDict_loop data 0 [] (by intro p hp; cases hp)
    simpa [futureDict, List.enum] using h0
  rw [h]
  exact ⟨List.enum_map_snd data, List.enum_length⟩

/-- C3: evaluation of the code at the failing input.  For a generator
function such as `_get_pulls` yielding two items, the worker task produces
no item at all — `future.result()` hands back the still-suspended
generator — and both items are produced in the caller, during
`result.extend`, after the task already completed.  This contradicts the
claim that each per-identifier lazy sequence is consumed eagerly by the
worker before its task completes. -/
theorem open_prs_generator_items_produced_in_caller :
    (workerCall (GenObj.mk ["pr1", "pr2"])).2 = [] ∧
    (callerExtend [] (workerCall (GenObj.mk ["pr1", "pr2"])).1).2 = ["pr1", "pr2"] :=
  ⟨rfl, rfl⟩

/-- C5: in every state a `_parallel` call can reach, no more than
`max_workers = 12` mapping-function invocations are in flight at once, and
the bound is the fixed constant 12, independent of the number `n` of
submitted identifiers. -/
theorem parallel_concurrency_bound (n : Nat) (s : PoolState) (h : Reachable n s) :
    s.running.length ≤ maxWorkers ∧ maxWorkers = 12 := by
  refine ⟨?_, rfl⟩
  induction h with
  | init => simp [initState]
  | step hr hs ih =>
    cases hs with
    | start i rest running finished hlt =>
      simp only [List.length_append, List.length_cons, List.length_nil]
      omega
    | finish i notStarted pre post finished =>
      simp only [List.length_append, List.length_cons] at ih ⊢
      omega
    | exit finished => exact ih

/-- Witness for C5 at a concrete input: a pool loaded with 13 tasks. -/
theorem parallel_concurrency_bound_witness :
    (initState 13).running.length ≤ maxWorkers ∧ maxWorkers = 12 :=
  parallel_concurrency_bound 13 (initState 13) Reachable.init

/-- Multiset of task indices is preserved by the pool, and control returns
to the caller only when nothing is pending or running. -/
theorem pool_members_invariant (n : Nat) (s : PoolState) (h : Reachable n s) :
    (s.notStarted ++ s.running ++ s.finished).Perm (List.range n) ∧
    (s.exited = true → s.notStarted = [] ∧ s.running = []) := by
  induction h with
  | init => exact ⟨by simp [initState], by simp [initState]⟩
  | step hr hs ih =>
    cases hs with
    | start i rest running finished hlt =>
      refine ⟨List.Perm.trans ?_ ih.1, by simp⟩
      apply List.perm_iff_count.mpr
      intro a
      simp only [List.count_append, List.count_cons, List.count_nil]
      ring
    | finish i notStarted pre post finished =>
      refine ⟨List.Perm.trans ?_ ih.1, by simp⟩
      apply List.perm_iff_count.mpr
      intro a
      simp only [List.count_append, List.count_cons, List.count_nil]
      ring
    | exit finished =>
      exact ⟨ih.1, fun _ => ⟨rfl, rfl⟩⟩

/-- C7: `_parallel` hands control back to the caller — by returning the
aggregate or by letting the task failure propagate — only in states where
every submitted task has finished, successfully or with failure. -/
theorem parallel_returns_after_all_tasks (n : Nat) (s : PoolState)
    (h : Reachable n s) (hx : s.exited = true) :
    s.finished.Perm (List.range n) := by
  obtain ⟨hperm, himp⟩ := pool_members_invariant n s h
  obtain ⟨h1, h2⟩ := himp hx
  simpa [h1, h2] using hperm

/-- Witness for C7: a full run over one task — submit, start, finish,
exit — after which the finished set is all submitted tasks. -/
theorem parallel_returns_after_all_tasks_witness :
    ([0] : List Nat).Perm (List.range 1) := by
  have e : initState 1 = ⟨[0], [], [], false⟩ := by decide
  have h0 : Reachable 1 ⟨[0], [], [], false⟩ := e ▸ Reachable.init
  have h1 : Reachable 1 ⟨[], [0], [], false⟩ :=
    h0.step (PoolStep.start 0 [] [] [] (by decide))
  have h2 : Reachable 1 ⟨[], [], [0], false⟩ :=
    h1.step (PoolStep.finish 0 [] [] [] [])
  have h3 : Reachable 1 ⟨[], [], [0], true⟩ := h2.step (PoolStep.exit [0])
  exact parallel_returns_after_all_tasks 1 ⟨[], [], [0], true⟩ h3 rfl

/- ### Order lemmas for the sort key comparison -/

/-- Code-point comparison is irreflexive. -/
theorem codesLt_irrefl (l : List Nat) : codesLt l l = false := by
  induction l with
  | nil => rfl
  | cons a as ih => simp [codesLt, ih]

/-- Code-point comparison is transitive. -/
theorem codesLt_trans : ∀ (a b c : List Nat),
    codesLt a b = true → codesLt b c = true → codesLt a c = true := by
  intro a
  induction a with
  | nil =>
    intro b c hab hbc
    cases b with
    | nil => simp [codesLt] at hab
    | cons y ys =>
      cases c with
      | nil => simp [codesLt] at hbc
      | cons z zs => simp [codesLt]
  | cons x xs ih =>
    intro b c hab hbc
    cases b with
    | nil => simp [codesLt] at hab
    | cons y ys =>
      cases c with
      | nil => simp [codesLt] at hbc
      | cons z zs =>
        simp only [codesLt, Bool.or_eq_true, Bool.and_eq_true, beq_iff_eq,
          decide_eq_true_eq] at hab hbc ⊢
        rcases hab with hxy | ⟨hxy, hxs⟩ <;> rcases hbc with hyz | ⟨hyz, hys⟩
        · exact Or.inl (Nat.lt_trans hxy hyz)
        · exact Or.inl (hyz ▸ hxy)
        · exact Or.inl (hxy ▸ hyz)
        · exact Or.inr ⟨hxy.trans hyz, ih ys zs hxs hys⟩

/-- Two lists neither of which is below the other are equal. -/
theorem codesLt_conn : ∀ (a b : List Nat),
    codesLt a b = false → codesLt b a = false → a = b := by
  intro a
  induction a with
  | nil =>
    intro b hab _
    cases b with
    | nil => rfl
    | cons y ys => simp [codesLt] at hab
  | cons x xs ih =>
    intro b hab hba
    cases b with
    | nil => simp [codesLt] at hba
    | cons y ys =>
      simp only [codesLt, Bool.or_eq_false_iff, Bool.and_eq_false_iff, beq_eq_false_iff_ne,
        ne_eq, decide_eq_false_iff_not] at hab hba
      have hxy : x = y := by omega
      subst hxy
      have h1 : codesLt xs ys = false := by
        rcases hab.2 with h | h
        · exact absurd rfl h
        · exact h
      have h2 : codesLt ys xs = false := by
        rcases hba.2 with h | h
        · exact absurd rfl h
        · exact h
      rw [ih ys h1 h2]

/-- Key-tuple comparison is irreflexive. -/
theorem tripleLt_irrefl (x : List Nat × List Nat × List Nat) : tripleLt x x = false := by
  simp [tripleLt, codesLt_irrefl]

/-- Key-tuple comparison is transitive. -/
theorem tripleLt_trans {x y z : List Nat × List Nat × List Nat}
    (hxy : tripleLt x y = true) (hyz : tripleLt y z = true) : tripleLt x z = true := by
  simp only [tripleLt, Bool.or_eq_true, Bool.and_eq_true, beq_iff_eq] at hxy hyz ⊢
  rcases hxy with h1 | ⟨e1, h1 | ⟨e2, h1⟩⟩ <;> rcases hyz with g1 | ⟨f1, g1 | ⟨f2, g1⟩⟩
  · exact Or.inl (codesLt_trans _ _ _ h1 g1)
  · exact Or.inl (f1 ▸ h1)
  · exact Or.inl (f1 ▸ h1)
  · exact Or.inl (e1 ▸ g1)
  · exact Or.inr ⟨e1.trans f1, Or.inl (codesLt_trans _ _ _ h1 g1)⟩
  · exact Or.inr ⟨e1.trans f1, Or.inl (f2 ▸ h1)⟩
  · exact Or.inl (e1 ▸ g1)
  · exact Or.inr ⟨e1.trans f1, Or.inl (e2 ▸ g1)⟩
  · exact Or.inr ⟨e1.trans f1, Or.inr ⟨e2.trans f2, codesLt_trans _ _ _ h1 g1⟩⟩

/-- Two key tuples neither of which is below the other are equal. -/
theorem tripleLt_conn {x y : List Nat × List Nat × List Nat}
    (hxy : tripleLt x y = false) (hyx : tripleLt y x = false) : x = y := by
  obtain ⟨x1, x2, x3⟩ := x
  obtain ⟨y1, y2, y3⟩ := y
  simp only [tripleLt, Bool.or_eq_false_iff, Bool.and_eq_false_iff, beq_eq_false_iff_ne,
    ne_eq] at hxy hyx
  have e1 : x1 = y1 := codesLt_conn _ _ hxy.1 hyx.1
  subst e1
  have hx2 : codesLt x2 y2 = false ∧ (¬x2 = y2 ∨ codesLt x3 y3 = false) := by
    rcases hxy.2 with h | h
    · exact absurd rfl h
    · exact h
  have hy2 : codesLt y2 x2 = false ∧ (¬y2 = x2 ∨ codesLt y3 x3 = false) := by
    rcases hyx.2 with h | h
    · exact absurd rfl h
    · exact h
  have e2 : x2 = y2 := codesLt_conn _ _ hx2.1 hy2.1
  subst e2
  have h3 : codesLt x3 y3 = false := by
    rcases hx2.2 with h | h
    · exact absurd rfl h
    · exact h
  have h3r : codesLt y3 x3 = false := by
    rcases hy2.2 with h | h
    · exact absurd rfl h
    · exact h
  rw [codesLt_conn _ _ h3 h3r]

/-- C9 (amended): the table rows of the `pr` command are sorted in
descending order of the key (owner login, repository name, updated
ISO timestamp); and whenever no two fetched rows share the same key, the
displayed order is the same for every completion order of the parallel
fetch — the input to `sorted` being the concatenation of the
per-identifier row blocks in nondeterministic block order.  (Rows with
equal keys instead retain the stable-sort input order, so there the
display may follow completion order; see the counterexample.) -/
theorem open_prs_sort_deterministic (bs1 bs2 : List (List Row))
    (hperm : bs1.Perm bs2)
    (hdist : bs1.flatten.Pairwise (fun a b => sortKey a ≠ sortKey b)) :
    List.Sorted rowGe (pySortedDesc bs1.flatten) ∧
    pySortedDesc bs1.flatten = pySortedDesc bs2.flatten := by
  haveI htot : IsTotal Row rowGe := by
    constructor
    intro a b
    by_cases hab : tripleLt (sortKey a) (sortKey b) = false
    · exact Or.inl hab
    · refine Or.inr ?_
      show tripleLt (sortKey b) (sortKey a) = false
      by_contra hba
      have h1 : tripleLt (sortKey a) (sortKey b) = true := by
        cases h : tripleLt (sortKey a) (sortKey b)
        · exact absurd h hab
        · rfl
      have h2 : tripleLt (sortKey b) (sortKey a) = true := by
        cases h : tripleLt (sortKey b) (sortKey a)
        · exact absurd h hba
        · rfl
      have := tripleLt_trans h1 h2
      rw [tripleLt_irrefl] at this
      exact Bool.false_ne_true this
  haveI htrans : IsTrans Row rowGe := by
    constructor
    intro a b c hab hbc
    show tripleLt (sortKey a) (sortKey c) = false
    by_contra hac
    have h1 : tripleLt (sortKey a) (sortKey c) = true := by
      cases h : tripleLt (sortKey a) (sortKey c)
      · exact absurd h hac
      · rfl
    cases h2 : tripleLt (sortKey c) (sortKey b)
    · have e : sortKey b = sortKey c := tripleLt_conn hbc h2
      rw [← e] at h1
      rw [hab] at h1
      exact Bool.false_ne_true h1
    · have h3 := tripleLt_trans h1 h2
      rw [hab] at h3
      exact Bool.false_ne_true h3
  constructor
  · exact List.sorted_insertionSort rowGe bs1.flatten
  · have hjoin : bs1.flatten.Perm bs2.flatten := hperm.flatten
    have hperm12 : (pySortedDesc bs1.flatten).Perm (pySortedDesc bs2.flatten) :=
      (List.perm_insertionSort rowGe bs1.flatten).trans
        (hjoin.trans (List.perm_insertionSort rowGe bs2.flatten).symm)
    have hd1 : (pySortedDesc bs1.flatten).Pairwise (fun a b => sortKey a ≠ sortKey b) :=
      ((List.perm_insertionSort rowGe bs1.flatten).pairwise_iff
        (fun h => Ne.symm h)).mpr hdist
    have hdist2 : bs2.flatten.Pairwise (fun a b => sortKey a ≠ sortKey b) :=
      (hjoin.pairwise_iff (fun h => Ne.symm h)).mp hdist
    have hd2 : (pySortedDesc bs2.flatten).Pairwise (fun a b => sortKey a ≠ sortKey b) :=
      ((List.perm_insertionSort rowGe bs2.flatten).pairwise_iff
        (fun h => Ne.symm h)).mpr hdist2
    have hge_ne_gt : ∀ {a b : Row}, rowGe a b ∧ sortKey a ≠ sortKey b → rowGt a b := by
      intro a b hab
      show tripleLt (sortKey b) (sortKey a) = true
      cases h : tripleLt (sortKey b) (sortKey a)
      · exact absurd (tripleLt_conn hab.1 h) hab.2
      · rfl
    have hs1 : List.Sorted rowGt (pySortedDesc bs1.flatten) :=
      ((List.sorted_insertionSort rowGe bs1.flatten).and hd1).imp hge_ne_gt
    have hs2 : List.Sorted rowGt (pySortedDesc bs2.flatten) :=
      ((List.sorted_insertionSort rowGe bs2.flatten).and hd2).imp hge_ne_gt
    haveI : IsAntisymm Row rowGt := by
      constructor
      intro a b h1 h2
      have := tripleLt_trans h1 h2
      rw [tripleLt_irrefl] at this
      exact absurd this Bool.false_ne_true
    exact List.eq_of_perm_of_sorted hperm12 hs1 hs2

/-- Witness for the amended C9 at a concrete input: two one-row blocks
with distinct keys, fetched in the two possible completion orders. -/
theorem open_prs_sort_deterministic_witness :
    List.Sorted rowGe (pySortedDesc ([[exRowA], [exRowC]].flatten)) ∧
    pySortedDesc ([[exRowA], [exRowC]].flatten) =
      pySortedDesc ([[exRowC], [exRowA]].flatten) :=
  open_prs_sort_deterministic [[exRowA], [exRowC]] [[exRowC], [exRowA]]
    (by decide) (by decide)

/-- C9 is refuted as stated: two rows from different identifiers sharing
one sort key — the same repository reached through two identifiers, two
pull requests with equal `updated_at` — are displayed in fetch-completion
order, so the rendered table is not independent of the completion order of
the parallel fetch. -/
theorem open_prs_sort_tie_counterexample :
    [[exRowA], [exRowB]].Perm [[exRowB], [exRowA]] ∧
    pySortedDesc ([[exRowA], [exRowB]].flatten) ≠
      pySortedDesc ([[exRowB], [exRowA]].flatten) := by
  constructor
  · decide
  · decide

/-- C10: the unversioned `python` symlink in `~/.local/bin` is created by
the very last command `run()` issues, it is created by no other command,
and after all commands have run it points at the `cpython-3.13.2`
installation — `3.13.2` being the final entry of the configured CPython
list — not at any PyPy or earlier CPython link made in the preceding
loop. -/
theorem install_python_symlink_last_and_newest :
    runCmds.getLast? =
      some (Cmd.lnSF (srcDir ++ "/cpython-3.13.2-macos-aarch64-none/bin/python")
        (destDir ++ "/python")) ∧
    List.lookup (destDir ++ "/python") finalLinks =
      some (srcDir ++ "/cpython-3.13.2-macos-aarch64-none/bin/python") ∧
    runCmds.countP isBarePythonLink = 1 ∧
    ((List.lookup "cpython" py).getD []).getLastD "" = "3.13.2" := by
  refine ⟨?_, ?_, ?_, ?_⟩
  · decide
  · decide
  · decide
  · decide

end AllReposSelf
